import Mathlib

/-!
Verification of the concurrent DeBank balance-retrieval pipeline
(`start.py`, `app/utils.py`, `app/questions.py`, `app/db_operations.py`).

Python floats for token amounts and prices are modelled as rationals (`ℚ`),
following the data model which types `amount` and `price` as floats; an
unknown price (`None` in the source) is `Option.none`.  Stateful loops are
modelled by explicit recursion or by a small-step relation; fallible code
returns `Except`/`Option`.
-/

namespace DebankChecker

/-- A raw coin entry as returned by the `/token/balance_list` endpoint:
the fields of `coin` read in `chain_balance` (start.py:43-53). -/
structure RawCoin where
  amount : ℚ
  name : String
  optimized_symbol : String
  price : Option ℚ
  logo_url : String
deriving DecidableEq, Repr

/-- The projected coin record appended to `coins` in `chain_balance`
(start.py:47-53): `{amount, name, ticker, price, logo_url}`. -/
structure Coin where
  amount : ℚ
  name : String
  ticker : String
  price : Option ℚ
  logo_url : String
deriving DecidableEq, Repr

/-- The projection performed by `coins.append({...})` (start.py:47-53). -/
def coinOfRaw (c : RawCoin) : Coin :=
  { amount := c.amount, name := c.name, ticker := c.optimized_symbol,
    price := c.price, logo_url := c.logo_url }

/-- Membership test `ticker in (None, coin[<optimized_symbol>])` (start.py:44): the filter is
absent (`None`) or equals the coin's optimized symbol. -/
def tickerMatches (ticker : Option String) (c : RawCoin) : Bool :=
  ticker = none || ticker = some c.optimized_symbol

/-- start.py:45-46: `coin_in_usd = '?' if coin["price"] is None else
coin["amount"] * coin["price"]`, then
`isinstance(coin_in_usd, str) or (isinstance(coin_in_usd, float) and coin_in_usd > min_amount)`.
Under the data model's float typing, the string marker `'?'` appears exactly
when the price is unknown, and otherwise the product is a float compared
against `min_amount`. -/
def passesValueFilter (min_amount : ℚ) (c : RawCoin) : Bool :=
  match c.price with
  | none => true
  | some p => decide (c.amount * p > min_amount)

/-- The filtering loop of `chain_balance` (start.py:43-55) over the decoded
`resp.json()['data']` list: keep (projected) entries whose ticker matches and
which pass the value filter, preserving order. -/
def chain_balance (ticker : Option String) (min_amount : ℚ) :
    List RawCoin → List Coin
  | [] => []
  | c :: rest =>
    if tickerMatches ticker c && passesValueFilter min_amount c then
      coinOfRaw c :: chain_balance ticker min_amount rest
    else
      chain_balance ticker min_amount rest

/-- Function `get_minimal_amount_in_usd` (questions.py:87-97) on an already-parsed
numeric input: `if min_amount == 0: min_amount = -1`, else returned as is. -/
def get_minimal_amount_in_usd (x : ℚ) : ℚ :=
  if x = 0 then -1 else x

/-! ## Authenticated request client (`send_request`, utils.py:215-317) -/

/-- The aspects of an HTTP response that `send_request` inspects:
`status_code`, whether `'data' in resp.text`, and the outcome of
`resp.json()` (`none` = raises a decode error, `some b` = decodes with
truthiness `b`). -/
structure HttpResponse where
  status : Nat
  hasDataField : Bool
  jsonBody : Option Bool
deriving DecidableEq, Repr

/-- The outcome of one `_make_request` call inside the retry loop:
either a `tls_client`/JSON exception or a response. -/
inductive RequestOutcome where
  | exn
  | ok (r : HttpResponse)
deriving DecidableEq, Repr

/-- Function `_handle_success` (utils.py:273-287):
`if 'data' in resp.text and resp.json(): return resp` else log and
`return None`.  When `'data'` is absent the short-circuit skips `resp.json()`;
when `resp.json()` raises, the exception escapes to `send_request`'s handler
(`Except.error`). -/
def handle_success (r : HttpResponse) : Except Unit (Option HttpResponse) :=
  if r.hasDataField then
    match r.jsonBody with
    | none => .error ()
    | some true => .ok (some r)
    | some false => .ok none
  else .ok none

/-- The `while True` retry loop of `send_request` (utils.py:238-253) run
against a finite script of per-attempt outcomes.  A `some` result is the value
`return`ed to the caller (`some r` = the response, `none` = Python `None`);
the overall `none` means the loop consumed the whole script still retrying.
On status 200 it returns `_handle_success(resp)`; a decode exception inside
`_handle_success` is caught by the `except` clause and retried; 429 and all
other statuses are logged/paced and retried. -/
def send_request : List RequestOutcome → Option (Option HttpResponse)
  | [] => none
  | .exn :: rest => send_request rest
  | .ok r :: rest =>
    if r.status = 200 then
      match handle_success r with
      | .ok v => some v
      | .error _ => send_request rest
    else
      send_request rest

/-! ## Worker pool and poison-pill shutdown (`worker`, start.py:218-232) -/

/-- A task on the shared task queue: `('chain_balance', ...)` /
`('get_wallet_balance', ...)` tuples, abstracted to their dispatch-relevant
identity, and the `('done',)` poison task.  `real` covers both retrieval
task kinds (their payload is irrelevant to shutdown). -/
inductive PoolTask where
  | real (id : Nat)
  | done
deriving DecidableEq, Repr

/-- The worker pool's shared state: the FIFO task queue and, per worker, a
pair (still running?, number of poison tasks this worker has re-enqueued). -/
structure PoolState where
  queue : List PoolTask
  workers : List (Bool × Nat)
deriving DecidableEq, Repr

/-- Number of poison tasks currently in a queue. -/
def countDone (q : List PoolTask) : Nat :=
  q.countP (fun t => t = PoolTask.done)

/-- All workers have exited their loop (`break` at start.py:232). -/
def allTerminated (s : PoolState) : Bool :=
  s.workers.all (fun wk => !wk.1)

/-- Instrumentation invariant: a running worker has re-enqueued the poison
0 times, a terminated one exactly once. -/
def WorkerInv (s : PoolState) : Prop :=
  ∀ wk ∈ s.workers, wk.2 = if wk.1 then 0 else 1

/-- One scheduler step of the worker loop (start.py:222-232): a running
worker dequeues the front task.  A real task is processed (result pushed to
the result queue, which this model does not track) and the worker loops; the
poison task `('done',)` is re-enqueued once (`queue_tasks.put(('done',))`)
and the worker terminates (`break`). -/
inductive WStep : PoolState → PoolState → Prop where
  | takeReal (d : Nat) (rest : List PoolTask) (ws : List (Bool × Nat))
      (i : Nat) (hi : i < ws.length) (hrun : (ws.get ⟨i, hi⟩).1 = true) :
      WStep ⟨PoolTask.real d :: rest, ws⟩ ⟨rest, ws⟩
  | takeDone (rest : List PoolTask) (ws : List (Bool × Nat))
      (i : Nat) (hi : i < ws.length) (hrun : (ws.get ⟨i, hi⟩).1 = true) :
      WStep ⟨PoolTask.done :: rest, ws⟩
        ⟨rest ++ [PoolTask.done], ws.set i (false, (ws.get ⟨i, hi⟩).2 + 1)⟩

/-- The initial pool state of `process_balances` for the shutdown phase
(start.py:279): all real tasks enqueued before the single poison task, and
`n` freshly started workers. -/
def initPool (tasks : List PoolTask) (n : Nat) : PoolState :=
  ⟨tasks ++ [PoolTask.done], List.replicate n (true, 0)⟩

/-! ## Result aggregation (`process_balances`, start.py:257-277) -/

/-- Update `coins[result[0]][result[1]] = result[2]` (start.py:260): a chain-balance
result `(chain, wallet, value)` overwrites one cell of the nested
chain → wallet map, represented as a function into `Option` (`none` = key
absent). -/
def applyChainResult {V : Type} (coins : String → String → Option V)
    (r : String × String × V) : String → String → Option V :=
  fun c => if c = r.1 then (fun w => if w = r.2.1 then some r.2.2 else coins c w)
  else coins c

/-- Update `balances[result[0]] = result[1]` (start.py:272): a wallet-total result
`(wallet, value)` overwrites one cell of the wallet map. -/
def applyBalanceResult {V : Type} (balances : String → Option V)
    (r : String × V) : String → Option V :=
  fun w => if w = r.1 then some r.2 else balances w

/-- Draining a phase's result queue in arrival order (start.py:257-261). -/
def foldChainResults {V : Type} (init : String → String → Option V)
    (rs : List (String × String × V)) : String → String → Option V :=
  rs.foldl applyChainResult init

/-- Draining the wallet-total results in arrival order (start.py:269-273). -/
def foldBalanceResults {V : Type} (init : String → Option V)
    (rs : List (String × V)) : String → Option V :=
  rs.foldl applyBalanceResult init

/-- The `(chain, wallet)` key of a chain-balance result tuple. -/
def chainResultKey {V : Type} (r : String × String × V) : String × String :=
  (r.1, r.2.1)

/-! ## Final restructuring (`get_balances`, start.py:307-312) -/

/-- Update `restructured[chain][wallet] = coins[chain][wallet]` on the inner map:
overwrite the entry of wallet `w` (present since line 308 initialised it). -/
def setWalletCoins :
    List (String × List Coin) → String → List Coin →
      List (String × List Coin)
  | [], _, _ => []
  | q :: rest, w, ts =>
    if q.1 = w then (w, ts) :: rest else q :: setWalletCoins rest w ts

/-- Update `restructured[chain][wallet] = coins[chain][wallet]` on the outer map. -/
def setChainWallet :
    List (String × List (String × List Coin)) → String → String →
      List Coin → List (String × List (String × List Coin))
  | [], _, _, _ => []
  | p :: rest, c, w, ts =>
    if p.1 = c then (c, setWalletCoins p.2 w ts) :: rest
    else p :: setChainWallet rest c w ts

/-- start.py:308: `{chain: {wallet: [] for wallet in wallets} for chain in
selected_chains}` as an association list (Python dicts keep insertion
order). -/
def initCoins (selected wallets : List String) :
    List (String × List (String × List Coin)) :=
  selected.map (fun c => (c, wallets.map (fun w => (w, ([] : List Coin)))))

/-- start.py:307-312: initialise every `(chain, wallet)` cell to `[]`, then
for each selected chain and wallet overwrite with `coins[chain][wallet]`
when that key is present (`if chain in coins and wallet in coins[chain]`).
`coins` is the map built by `process_balances`, given as a lookup
function (`none` = key absent). -/
def restructureCoins (selected wallets : List String)
    (coins : String → String → Option (List Coin)) :
    List (String × List (String × List Coin)) :=
  selected.foldl
    (fun m c =>
      wallets.foldl
        (fun m2 w =>
          match coins c w with
          | some ts => setChainWallet m2 c w ts
          | none => m2)
        m)
    (initCoins selected wallets)

/-- Association-list lookup (dict subscript): first entry with the given
key. -/
def lookupKey {α : Type} : List (String × α) → String → Option α
  | [], _ => none
  | q :: rest, k => if q.1 = k then some q.2 else lookupKey rest k

/-- Totality of a nested chain → wallet map: every selected chain has a row
and every wallet has an entry in it. -/
def TotalMap (selected wallets : List String)
    (m : List (String × List (String × List Coin))) : Prop :=
  ∀ c ∈ selected, ∃ row, lookupKey m c = some row ∧
    ∀ w ∈ wallets, ∃ ts, lookupKey row w = some ts

/-! ## Signature client (`NodeProcess.write` utils.py:66-90,
`generate_req_params` utils.py:150-186) -/

/-- What one `readline` round yields once a line is obtained:
an empty line (`ValueError("Empty response from Node.js process")`),
an undecodable line (`json.JSONDecodeError` from `json.loads`), or a decoded
signature triple (abstracted to a tag). -/
inductive LineKind where
  | empty
  | badJson
  | goodSig (sig : Nat)
deriving DecidableEq, Repr

/-- The behaviour of `node_process.readline()` (utils.py:92-106) for one
call: either the first read succeeds with the given line, or it raises an
I/O error, the process is restarted, and the second read yields the line. -/
inductive ReadLine where
  | line (l : LineKind)
  | ioErrorThen (l : LineKind)
deriving DecidableEq, Repr

/-- The scripted behaviour of one attempt of `generate_req_params`:
the write outcomes seen by `NodeProcess.write`'s inner retry loop
(`true` = the write succeeds; missing entries default to success) and the
readline behaviour. -/
structure SignAttempt where
  writeOutcomes : List Bool
  read : ReadLine
deriving DecidableEq, Repr

/-- Method `NodeProcess.write` (utils.py:78-90), its 3-attempt loop unrolled:
on a failed non-final attempt the Node process is restarted
(`self._start_process()`, counted); after the third failure it raises
`RuntimeError`.  Returns the updated restart count. -/
def nodeWrite (outcomes : List Bool) (restarts : Nat) : Except Unit Nat :=
  if outcomes.getD 0 true then .ok restarts
  else if outcomes.getD 1 true then .ok (restarts + 1)
  else if outcomes.getD 2 true then .ok (restarts + 2)
  else .error ()

/-- Method `NodeProcess.readline` (utils.py:101-106): an I/O error on the first
read restarts the process once and reads again. -/
def nodeReadline (r : ReadLine) (restarts : Nat) : LineKind × Nat :=
  match r with
  | .line l => (l, restarts)
  | .ioErrorThen l => (l, restarts + 1)

/-- The outcome of one loop iteration of `generate_req_params`
(utils.py:168-182): `fatal` when `NodeProcess.write` raised `RuntimeError`
(not caught by the `except (ValueError, json.JSONDecodeError)` clause),
`retryable` when the response line was empty or undecodable (caught and
logged), `success` with the decoded signature otherwise. -/
inductive SignAttemptResult where
  | fatal
  | retryable (restarts : Nat)
  | success (sig restarts : Nat)
deriving DecidableEq, Repr

/-- Run one attempt of `generate_req_params` (utils.py:168-176). -/
def runSignAttempt (a : SignAttempt) (restarts : Nat) : SignAttemptResult :=
  match nodeWrite a.writeOutcomes restarts with
  | .error _ => .fatal
  | .ok r1 =>
    match nodeReadline a.read r1 with
    | (.empty, r2) => .retryable r2
    | (.badJson, r2) => .retryable r2
    | (.goodSig n, r2) => .success n r2

/-- Function `generate_req_params` (utils.py:166-186), its `max_retries = 3` loop
unrolled over three scripted attempts.  On success it returns the decoded
signature together with the final process-restart count; after three
retryable failures (or a fatal write failure) it raises `RuntimeError`. -/
def generate_req_params (a1 a2 a3 : SignAttempt) (restarts : Nat) :
    Except Unit (Nat × Nat) :=
  match runSignAttempt a1 restarts with
  | .fatal => .error ()
  | .success n r => .ok (n, r)
  | .retryable r =>
    match runSignAttempt a2 r with
    | .fatal => .error ()
    | .success n r2 => .ok (n, r2)
    | .retryable r2 =>
      match runSignAttempt a3 r2 with
      | .fatal => .error ()
      | .success n r3 => .ok (n, r3)
      | .retryable _ => .error ()

/-- An attempt whose write never fails and whose readline raises no I/O
error: the only restart sources are absent. -/
def cleanAttempt (a : SignAttempt) : Bool :=
  a.writeOutcomes.all (fun b => b) &&
    (match a.read with | .line _ => true | .ioErrorThen _ => false)

/-! ## Pool discovery (`get_pools`, start.py:130-216) -/

/-- The outcome of `get_pool(session, wallet)` for one wallet
(start.py:200-207): either the fetched pool → coin-list map, or one of the
caught exceptions (`requests.RequestException`, `ValueError`, `KeyError`),
which is logged and contributes nothing. -/
def PoolFetchOutcome : Type := Except Unit (List (String × List Coin))

/-- Association-list update mirroring
`all_pools[pool_name][wallet] = pool_data` after
`if pool_name not in all_pools: all_pools[pool_name] = {}`
(start.py:203-205): append the key when absent, else extend its row. -/
def insertPoolEntry (allPools : List (String × List (String × List Coin)))
    (poolName wallet : String) (poolData : List Coin) :
    List (String × List (String × List Coin)) :=
  if allPools.any (fun p => p.1 = poolName) then
    allPools.map (fun p => if p.1 = poolName then (p.1, p.2 ++ [(wallet, poolData)]) else p)
  else
    allPools ++ [(poolName, [(wallet, poolData)])]

/-- The accumulation loop of `get_pools` (start.py:198-208): per wallet,
merge its fetched pools into `all_pools`; a fetch error is caught and that
wallet contributes nothing. -/
def accumulatePools
    (walletOutcomes : List (String × PoolFetchOutcome)) :
    List (String × List (String × List Coin)) :=
  walletOutcomes.foldl
    (fun allPools wo =>
      match wo.2 with
      | .error _ => allPools
      | .ok pools =>
        pools.foldl (fun acc pr => insertPoolEntry acc pr.1 wo.1 pr.2) allPools)
    []

/-- The fill-in loop of `get_pools` (start.py:210-213):
`for pool_data in all_pools.items()` binds `pool_data` to a
`(pool_name, wallet_map)` *tuple* (the pair is not unpacked);
`wallet not in pool_data` is membership in that tuple, which can only hold
when the wallet string equals the pool-name string (a string never equals
the inner dict); and `pool_data[wallet] = []` is item assignment on a tuple,
which raises `TypeError`. -/
def fillPoolPair (pool_data : String × List (String × List Coin))
    (wallets : List String) :
    Except Unit (String × List (String × List Coin)) :=
  match wallets with
  | [] => .ok pool_data
  | w :: rest =>
    if w = pool_data.1 then fillPoolPair pool_data rest
    else .error ()

/-- The whole fill-in pass over `all_pools.items()` (start.py:210-213). -/
def fillPoolWallets (allPools : List (String × List (String × List Coin)))
    (wallets : List String) :
    Except Unit (List (String × List (String × List Coin))) :=
  allPools.mapM (fun pd => fillPoolPair pd wallets)

/-- Function `get_pools` (start.py:196-216) over scripted per-wallet fetch outcomes:
accumulate, then run the fill-in pass over the wallets list. -/
def get_pools (walletOutcomes : List (String × PoolFetchOutcome)) :
    Except Unit (List (String × List (String × List Coin))) :=
  fillPoolWallets (accumulatePools walletOutcomes)
    (walletOutcomes.map Prod.fst)

/-! ## Database persistence (`save_to_database`, db_operations.py:28-135) -/

/-- One row inserted into `wallet_token` or `pool`
(db_operations.py:80-90, 121-133), restricted to the data-dependent
columns: `quantity = token['amount']`, `token_price = token['price']`, and
`value = token['amount'] * token['price']`. -/
structure TokenRow where
  token_name : String
  quantity : ℚ
  token_price : Option ℚ
  value : ℚ
deriving DecidableEq, Repr

/-- The inner token loop (db_operations.py:73-90 and 115-133): computing
`token['amount'] * token['price']` when the price is `None` multiplies a
float by `None`, raising `TypeError`. -/
def insertTokenRows : List Coin → Except Unit (List TokenRow)
  | [] => .ok []
  | t :: rest =>
    match t.price with
    | none => .error ()
    | some p =>
      match insertTokenRows rest with
      | .error e => .error e
      | .ok rows => .ok (⟨t.name, t.amount, some p, t.amount * p⟩ :: rows)

/-- The wallet loop over one chain's (or pool's) wallet → tokens map
(db_operations.py:71-90, 113-133). -/
def insertWalletRows : List (String × List Coin) → Except Unit (List TokenRow)
  | [] => .ok []
  | (_, tokens) :: rest =>
    match insertTokenRows tokens with
    | .error e => .error e
    | .ok rows =>
      match insertWalletRows rest with
      | .error e => .error e
      | .ok rows2 => .ok (rows ++ rows2)

/-- The outer loop over the chain → wallet → tokens map
(db_operations.py:69-90) and, identically shaped, over `pools`
(db_operations.py:101-133). -/
def insertMapRows :
    List (String × List (String × List Coin)) → Except Unit (List TokenRow)
  | [] => .ok []
  | (_, walletMap) :: rest =>
    match insertWalletRows walletMap with
    | .error e => .error e
    | .ok rows =>
      match insertMapRows rest with
      | .error e => .error e
      | .ok rows2 => .ok (rows ++ rows2)

/-- Function `save_to_database` (db_operations.py:28-135), restricted to the
row-value computation the claim is about: the `wallet_token` rows from
`coins` followed by the `pool` rows from `pools` (id lookups and SQL
plumbing abstracted away). -/
def save_to_database
    (coins pools : List (String × List (String × List Coin))) :
    Except Unit (List TokenRow × List TokenRow) :=
  match insertMapRows coins with
  | .error e => .error e
  | .ok rows =>
    match insertMapRows pools with
    | .error e => .error e
    | .ok rows2 => .ok (rows, rows2)

/-- Every coin entry in a token list has a known (non-null) price. -/
def tokensPricesKnown : List Coin → Bool
  | [] => true
  | t :: rest => t.price.isSome && tokensPricesKnown rest

/-- Every coin entry in a wallet → tokens map has a known price. -/
def walletPricesKnown : List (String × List Coin) → Bool
  | [] => true
  | q :: rest => tokensPricesKnown q.2 && walletPricesKnown rest

/-- Every coin entry in a chain/pool → wallet → tokens map has a known
(non-null) price. -/
def allPricesKnown : List (String × List (String × List Coin)) → Bool
  | [] => true
  | p :: rest => walletPricesKnown p.2 && allPricesKnown rest

/-- Success of an `Except` as a Boolean (abbreviates pattern matching in the
persistence lemmas). -/
def exceptOk {ε α : Type} : Except ε α → Bool
  | .ok _ => true
  | .error _ => false

end DebankChecker

namespace DebankChecker

/-! ## Helper lemmas -/

theorem chain_balance_eq_filter_map (ticker : Option String) (min_amount : ℚ)
    (data : List RawCoin) :
    chain_balance ticker min_amount data =
      (data.filter
        (fun c => tickerMatches ticker c && passesValueFilter min_amount c)).map
        coinOfRaw := by
  induction data with
  | nil => rfl
  | cons c rest ih =>
    by_cases h : (tickerMatches ticker c && passesValueFilter min_amount c) = true
    · simp [chain_balance, List.filter_cons, h, ih]
    · simp [chain_balance, List.filter_cons, h, ih]

theorem handle_success_ok_some {r r' : HttpResponse}
    (h : handle_success r = .ok (some r')) :
    r' = r ∧ r.hasDataField = true ∧ r.jsonBody = some true := by
  unfold handle_success at h
  by_cases hd : r.hasDataField
  · rw [if_pos hd] at h
    cases hj : r.jsonBody with
    | none => rw [hj] at h; simp at h
    | some b =>
      rw [hj] at h
      cases b
      · simp at h
      · simp at h; exact ⟨h.symm, hd, rfl⟩
  · rw [if_neg hd] at h; simp at h

theorem handle_success_ok_none {r : HttpResponse}
    (h : handle_success r = .ok none) :
    r.hasDataField = false ∨ r.jsonBody = some false := by
  unfold handle_success at h
  by_cases hd : r.hasDataField
  · rw [if_pos hd] at h
    cases hj : r.jsonBody with
    | none => rw [hj] at h; simp at h
    | some b =>
      cases b
      · exact Or.inr rfl
      · rw [hj] at h; simp at h
  · refine Or.inl ?_
    simpa using hd

theorem insertTokenRows_ok (ts : List Coin) :
    exceptOk (insertTokenRows ts) = tokensPricesKnown ts := by
  induction ts with
  | nil => rfl
  | cons t rest ih =>
    simp only [insertTokenRows, tokensPricesKnown]
    cases hp : t.price with
    | none => simp only [exceptOk, Option.isSome_none, Bool.false_and]
    | some p =>
      simp only [Option.isSome_some, Bool.true_and]
      cases hr : insertTokenRows rest with
      | error e =>
        rw [hr] at ih
        simp only [exceptOk] at ih ⊢
        exact ih
      | ok rows =>
        rw [hr] at ih
        simp only [exceptOk] at ih ⊢
        exact ih

theorem insertWalletRows_ok (wm : List (String × List Coin)) :
    exceptOk (insertWalletRows wm) = walletPricesKnown wm := by
  induction wm with
  | nil => rfl
  | cons q rest ih =>
    obtain ⟨w, tokens⟩ := q
    have htok := insertTokenRows_ok tokens
    simp only [insertWalletRows, walletPricesKnown]
    cases ht : insertTokenRows tokens with
    | error e =>
      rw [ht] at htok
      simp only [exceptOk] at htok
      simp only [exceptOk, ← htok, Bool.false_and]
    | ok rows =>
      rw [ht] at htok
      simp only [exceptOk] at htok
      rw [← htok, Bool.true_and]
      cases hr : insertWalletRows rest with
      | error e =>
        rw [hr] at ih
        simp only [exceptOk] at ih ⊢
        exact ih
      | ok rows2 =>
        rw [hr] at ih
        simp only [exceptOk] at ih ⊢
        exact ih

theorem insertMapRows_ok (m : List (String × List (String × List Coin))) :
    exceptOk (insertMapRows m) = allPricesKnown m := by
  induction m with
  | nil => rfl
  | cons q rest ih =>
    obtain ⟨c, wm⟩ := q
    have hw0 := insertWalletRows_ok wm
    simp only [insertMapRows, allPricesKnown]
    cases hw : insertWalletRows wm with
    | error e =>
      rw [hw] at hw0
      simp only [exceptOk] at hw0
      simp only [exceptOk, ← hw0, Bool.false_and]
    | ok rows =>
      rw [hw] at hw0
      simp only [exceptOk] at hw0
      rw [← hw0, Bool.true_and]
      cases hr : insertMapRows rest with
      | error e =>
        rw [hr] at ih
        simp only [exceptOk] at ih ⊢
        exact ih
      | ok rows2 =>
        rw [hr] at ih
        simp only [exceptOk] at ih ⊢
        exact ih

/-! ## Claim theorems -/

/-- C4: `chain_balance` keeps exactly the entries whose ticker matches the
filter (or all entries when the filter is absent) and which pass the value
filter; for a known price the value filter is the strict comparison
`amount * price > min_usd`; and concretely, with filter "ETH" and
`min_usd = 5`, an ETH entry with amount 2 and price 3 is kept, an ETH entry
with amount 1 and price 2 is dropped, and a BTC entry is dropped regardless
of value. -/
theorem chain_balance_filter_correct :
    (∀ (ticker : Option String) (min_amount : ℚ) (data : List RawCoin),
        chain_balance ticker min_amount data =
          (data.filter (fun c =>
            tickerMatches ticker c && passesValueFilter min_amount c)).map
            coinOfRaw)
    ∧ (∀ (min_amount : ℚ) (c : RawCoin),
        passesValueFilter min_amount c = true ↔
          (c.price = none ∨ ∃ p, c.price = some p ∧ min_amount < c.amount * p))
    ∧ chain_balance (some ("ETH")) 5
        [⟨2, "Ether", "ETH", some 3, "l"⟩, ⟨1, "Ether", "ETH", some 2, "l"⟩,
         ⟨100, "Bitcoin", "BTC", some 100, "l"⟩]
        = [coinOfRaw ⟨2, "Ether", "ETH", some 3, "l"⟩] := by
  refine ⟨chain_balance_eq_filter_map, ?_, ?_⟩
  · intro min_amount c
    cases hp : c.price with
    | none => simp [passesValueFilter, hp]
    | some p => simp [passesValueFilter, hp, GT.gt]
  · norm_num [chain_balance, tickerMatches, passesValueFilter, coinOfRaw]
    decide

/-- C5: a coin entry with unknown (`None`) price always passes the
minimum-USD value filter, for every threshold, and (when its ticker matches
the filter) is retained in the output of `chain_balance`. -/
theorem unknown_price_passthrough (ticker : Option String) (min_amount : ℚ)
    (data : List RawCoin) (c : RawCoin) (hp : c.price = none) (hmem : c ∈ data)
    (ht : tickerMatches ticker c = true) :
    passesValueFilter min_amount c = true ∧
      coinOfRaw c ∈ chain_balance ticker min_amount data := by
  have hpass : passesValueFilter min_amount c = true := by
    simp [passesValueFilter, hp]
  refine ⟨hpass, ?_⟩
  rw [chain_balance_eq_filter_map]
  exact List.mem_map_of_mem _ (List.mem_filter.mpr ⟨hmem, by simp [ht, hpass]⟩)

/-- Witness for C5 at a concrete unknown-price entry and threshold 100. -/
theorem unknown_price_passthrough_witness :
    passesValueFilter 100 ⟨1, "X", "XTK", none, "l"⟩ = true ∧
      coinOfRaw ⟨1, "X", "XTK", none, "l"⟩ ∈
        chain_balance none 100 [⟨1, "X", "XTK", none, "l"⟩] :=
  unknown_price_passthrough none 100 [⟨1, "X", "XTK", none, "l"⟩]
    ⟨1, "X", "XTK", none, "l"⟩ rfl (List.mem_singleton.mpr rfl) rfl

/-- C10: `get_minimal_amount_in_usd` maps an entered 0 to -1 and returns
any other numeric input unchanged; consequently every known-price coin
entry with USD value ≥ 0 passes the strict `>` value filter at the
resulting threshold. -/
theorem min_amount_zero_behavior :
    get_minimal_amount_in_usd 0 = -1
    ∧ (∀ x : ℚ, x ≠ 0 → get_minimal_amount_in_usd x = x)
    ∧ (∀ (c : RawCoin) (p : ℚ), c.price = some p → 0 ≤ c.amount * p →
        passesValueFilter (get_minimal_amount_in_usd 0) c = true) := by
  refine ⟨by simp [get_minimal_amount_in_usd], ?_, ?_⟩
  · intro x hx
    simp [get_minimal_amount_in_usd, hx]
  · intro c p hp h0
    have h1 : get_minimal_amount_in_usd 0 = -1 := by
      simp [get_minimal_amount_in_usd]
    rw [h1]
    simp only [passesValueFilter, hp, decide_eq_true_eq]
    linarith

/-- Witness for C10: 0 becomes -1, -1 is returned unchanged, and a
zero-value known-price entry passes the filter at the mapped threshold. -/
theorem min_amount_zero_witness :
    get_minimal_amount_in_usd 0 = -1
    ∧ get_minimal_amount_in_usd (-1) = -1
    ∧ passesValueFilter (get_minimal_amount_in_usd 0)
        ⟨0, "T", "TOK", some 0, "l"⟩ = true :=
  ⟨min_amount_zero_behavior.1,
   min_amount_zero_behavior.2.1 (-1) (by simp),
   min_amount_zero_behavior.2.2 ⟨0, "T", "TOK", some 0, "l"⟩ 0 rfl (by simp)⟩

/-- C1 counterexample: a 200 response whose body lacks the `data` field
makes `send_request` return `None` to its caller at once — it does not
retry, contradicting the claim that only a 200-with-data response is ever
returned. -/
theorem send_request_returns_none_on_malformed_200 :
    send_request [RequestOutcome.ok ⟨200, false, some true⟩] = some none := rfl

/-- C1 amended: a response object is returned only for HTTP 200 with a body
containing `data` and truthy JSON; a `None` return happens exactly on a 200
response with a malformed body (no `data` field or falsy JSON), without
retrying; and while no 200 response arrives (other statuses, rate limits,
exceptions) the loop keeps retrying and returns nothing. -/
theorem send_request_retry_behavior :
    (∀ (script : List RequestOutcome) (r : HttpResponse),
        send_request script = some (some r) →
        r.status = 200 ∧ r.hasDataField = true ∧ r.jsonBody = some true)
    ∧ (∀ script : List RequestOutcome,
        send_request script = some none →
        ∃ r : HttpResponse, RequestOutcome.ok r ∈ script ∧ r.status = 200 ∧
          (r.hasDataField = false ∨ r.jsonBody = some false))
    ∧ (∀ script : List RequestOutcome,
        (∀ r : HttpResponse, RequestOutcome.ok r ∈ script → r.status ≠ 200) →
        send_request script = none) := by
  refine ⟨?_, ?_, ?_⟩
  · intro script
    induction script with
    | nil => intro r h; simp [send_request] at h
    | cons a rest ih =>
      intro r h
      cases a with
      | exn => exact ih r h
      | ok r0 =>
        rw [send_request] at h
        by_cases hs : r0.status = 200
        · rw [if_pos hs] at h
          cases hh : handle_success r0 with
          | error e => rw [hh] at h; exact ih r h
          | ok v =>
            rw [hh] at h
            cases v with
            | none => simp at h
            | some r1 =>
              have hr1 : r1 = r := by simpa using h
              obtain ⟨he, hd, hj⟩ := handle_success_ok_some hh
              subst hr1; subst he
              exact ⟨hs, hd, hj⟩
        · rw [if_neg hs] at h
          exact ih r h
  · intro script
    induction script with
    | nil => intro h; simp [send_request] at h
    | cons a rest ih =>
      intro h
      cases a with
      | exn =>
        obtain ⟨r, hmem, hrest⟩ := ih h
        exact ⟨r, List.mem_cons_of_mem _ hmem, hrest⟩
      | ok r0 =>
        rw [send_request] at h
        by_cases hs : r0.status = 200
        · rw [if_pos hs] at h
          cases hh : handle_success r0 with
          | error e =>
            rw [hh] at h
            obtain ⟨r, hmem, hrest⟩ := ih h
            exact ⟨r, List.mem_cons_of_mem _ hmem, hrest⟩
          | ok v =>
            rw [hh] at h
            cases v with
            | none =>
              exact ⟨r0, List.mem_cons_self _ _, hs, handle_success_ok_none hh⟩
            | some r1 => simp at h
        · rw [if_neg hs] at h
          obtain ⟨r, hmem, hrest⟩ := ih h
          exact ⟨r, List.mem_cons_of_mem _ hmem, hrest⟩
  · intro script
    induction script with
    | nil => intro _; rfl
    | cons a rest ih =>
      intro hno
      cases a with
      | exn =>
        exact ih (fun r hr => hno r (List.mem_cons_of_mem _ hr))
      | ok r0 =>
        rw [send_request]
        rw [if_neg (hno r0 (List.mem_cons_self _ _))]
        exact ih (fun r hr => hno r (List.mem_cons_of_mem _ hr))

/-- Witness for C1 amended: a well-formed 200 response is returned as such,
and a script with only an exception outcome yields no return. -/
theorem send_request_retry_behavior_witness :
    ((⟨200, true, some true⟩ : HttpResponse).status = 200
      ∧ (⟨200, true, some true⟩ : HttpResponse).hasDataField = true
      ∧ (⟨200, true, some true⟩ : HttpResponse).jsonBody = some true)
    ∧ send_request [RequestOutcome.exn] = none :=
  ⟨send_request_retry_behavior.1 [RequestOutcome.ok ⟨200, true, some true⟩]
      ⟨200, true, some true⟩ rfl,
   send_request_retry_behavior.2.2 [RequestOutcome.exn]
      (by intro r hr; simp at hr)⟩

/-- C9: the row-value computation of `save_to_database` succeeds exactly
when every coin entry in the aggregate and in every pool has a known
(non-null) price — a null price raises `TypeError` from
`token['amount'] * token['price']` — and each stored row's `value` column
is `amount * price`. -/
theorem save_to_database_price_guard :
    (∀ coins pools : List (String × List (String × List Coin)),
        exceptOk (save_to_database coins pools) =
          (allPricesKnown coins && allPricesKnown pools))
    ∧ (∀ (c : Coin) (p : ℚ),
        insertTokenRows [{ c with price := some p }] =
          .ok [⟨c.name, c.amount, some p, c.amount * p⟩]) := by
  constructor
  · intro coins pools
    cases hc : insertMapRows coins with
    | error e =>
      have := insertMapRows_ok coins
      rw [hc] at this
      simp [save_to_database, hc, exceptOk, ← this]
    | ok rows =>
      have := insertMapRows_ok coins
      rw [hc] at this
      cases hp : insertMapRows pools with
      | error e =>
        have h2 := insertMapRows_ok pools
        rw [hp] at h2
        simp [save_to_database, hc, hp, exceptOk, ← this, ← h2]
      | ok rows2 =>
        have h2 := insertMapRows_ok pools
        rw [hp] at h2
        simp [save_to_database, hc, hp, exceptOk, ← this, ← h2]
  · intro c p
    rfl

/-- If every scripted write succeeds, `NodeProcess.write` returns on the
first attempt with the restart count unchanged. -/
theorem nodeWrite_all_ok (outs : List Bool) (r : Nat)
    (h : outs.all (fun b => b) = true) : nodeWrite outs r = .ok r := by
  cases outs with
  | nil => rfl
  | cons b t =>
    have hb : b = true := by
      have := List.all_eq_true.mp h b (List.mem_cons_self b t)
      simpa using this
    simp [nodeWrite, hb]

/-- A clean attempt (no write failure, no read I/O error) leaves the
restart count unchanged, whatever line it yields. -/
theorem runSignAttempt_clean (a : SignAttempt) (r : Nat)
    (hc : cleanAttempt a = true) :
    (∀ r', runSignAttempt a r = .retryable r' → r' = r) ∧
      (∀ n r', runSignAttempt a r = .success n r' → r' = r) := by
  obtain ⟨outs, rd⟩ := a
  unfold cleanAttempt at hc
  rw [Bool.and_eq_true] at hc
  obtain ⟨houts, hrd⟩ := hc
  have hw : nodeWrite outs r = .ok r := nodeWrite_all_ok outs r houts
  cases rd with
  | ioErrorThen l => simp at hrd
  | line l =>
    cases l with
    | empty =>
      refine ⟨?_, ?_⟩
      · intro r' h
        simp [runSignAttempt, hw, nodeReadline] at h
        exact h.symm
      · intro n r' h
        simp [runSignAttempt, hw, nodeReadline] at h
    | badJson =>
      refine ⟨?_, ?_⟩
      · intro r' h
        simp [runSignAttempt, hw, nodeReadline] at h
        exact h.symm
      · intro n r' h
        simp [runSignAttempt, hw, nodeReadline] at h
    | goodSig m =>
      refine ⟨?_, ?_⟩
      · intro r' h
        simp [runSignAttempt, hw, nodeReadline] at h
      · intro n r' h
        simp [runSignAttempt, hw, nodeReadline] at h
        exact h.2.symm

/-- C6 counterexample: an attempt that fails with an empty response line is
retried *without* restarting the Node signing process — the run below
contains one empty-line failure, then succeeds, and the final restart count
is still 0, refuting "restarts the external signing process and retries"
for this failure kind. -/
theorem generate_req_params_no_restart_on_failure :
    generate_req_params ⟨[], .line .empty⟩ ⟨[], .line (.goodSig 7)⟩
      ⟨[], .line (.goodSig 7)⟩ 0 = Except.ok (7, 0) := rfl

/-- C6 amended: on empty or undecodable response lines
`generate_req_params` retries up to 3 attempts in total and then raises a
fatal `RuntimeError`; those retries do not restart the signing process —
in a run whose attempts are free of write/read I/O errors the restart
count is unchanged on success (restarts happen only inside the
`write`/`readline` primitives on I/O errors). -/
theorem generate_req_params_bounded_retry :
    (∀ (a1 a2 a3 : SignAttempt) (r0 r1 r2 r3 : Nat),
        runSignAttempt a1 r0 = .retryable r1 →
        runSignAttempt a2 r1 = .retryable r2 →
        runSignAttempt a3 r2 = .retryable r3 →
        generate_req_params a1 a2 a3 r0 = .error ())
    ∧ (∀ (a1 a2 a3 : SignAttempt) (r0 n rOut : Nat),
        cleanAttempt a1 = true → cleanAttempt a2 = true →
        cleanAttempt a3 = true →
        generate_req_params a1 a2 a3 r0 = .ok (n, rOut) → rOut = r0) := by
  constructor
  · intro a1 a2 a3 r0 r1 r2 r3 h1 h2 h3
    simp [generate_req_params, h1, h2, h3]
  · intro a1 a2 a3 r0 n rOut hc1 hc2 hc3 h
    unfold generate_req_params at h
    cases h1 : runSignAttempt a1 r0 with
    | fatal => rw [h1] at h; simp at h
    | success n1 rr =>
      rw [h1] at h
      simp at h
      have e : rr = r0 := (runSignAttempt_clean a1 r0 hc1).2 n1 rr h1
      rw [← h.2, e]
    | retryable rr =>
      rw [h1] at h
      simp only [] at h
      have e1 : rr = r0 := (runSignAttempt_clean a1 r0 hc1).1 rr h1
      cases h2 : runSignAttempt a2 rr with
      | fatal => rw [h2] at h; simp at h
      | success n2 rr2 =>
        rw [h2] at h
        simp at h
        have e2 : rr2 = rr := (runSignAttempt_clean a2 rr hc2).2 n2 rr2 h2
        rw [← h.2, e2, e1]
      | retryable rr2 =>
        rw [h2] at h
        simp only [] at h
        have e2 : rr2 = rr := (runSignAttempt_clean a2 rr hc2).1 rr2 h2
        cases h3 : runSignAttempt a3 rr2 with
        | fatal => rw [h3] at h; simp at h
        | success n3 rr3 =>
          rw [h3] at h
          simp at h
          have e3 : rr3 = rr2 := (runSignAttempt_clean a3 rr2 hc3).2 n3 rr3 h3
          rw [← h.2, e3, e2, e1]
        | retryable rr3 => rw [h3] at h; simp at h

/-- Witness for C6 amended: three undecodable-line attempts end in the
fatal error, and a clean immediately-successful run keeps restart count 0. -/
theorem generate_req_params_bounded_retry_witness :
    generate_req_params ⟨[], .line .badJson⟩ ⟨[], .line .badJson⟩
      ⟨[], .line .badJson⟩ 0 = Except.error ()
    ∧ (0 : Nat) = 0 :=
  ⟨generate_req_params_bounded_retry.1 ⟨[], .line .badJson⟩
      ⟨[], .line .badJson⟩ ⟨[], .line .badJson⟩ 0 0 0 0 rfl rfl rfl,
   generate_req_params_bounded_retry.2 ⟨[], .line (.goodSig 5)⟩
      ⟨[], .line (.goodSig 5)⟩ ⟨[], .line (.goodSig 5)⟩ 0 5 0
      rfl rfl rfl rfl⟩

/-- C7: evaluating `get_pools` at a failing input.  With one wallet whose
fetch succeeds with one pool, the fill-in loop at start.py:210-213 raises
`TypeError` (item assignment on the `(pool_name, wallet_map)` tuple bound by
`for pool_data in all_pools.items()`), so the run aborts instead of
returning a complete pool map; by contrast a caught per-wallet fetch error
leaves the run alive with that wallet contributing nothing. -/
theorem get_pools_crashes_on_discovered_pool :
    get_pools [("0xa", (Except.ok [("aave (eth)", [])] : PoolFetchOutcome))]
        = Except.error ()
    ∧ get_pools [("0xa", (Except.error () : PoolFetchOutcome))]
        = Except.ok [] := by
  constructor <;> rfl

theorem applyChainResult_ne {V : Type} (init : String → String → Option V)
    (r : String × String × V) (c w : String)
    (h : chainResultKey r ≠ (c, w)) :
    applyChainResult init r c w = init c w := by
  unfold applyChainResult
  by_cases hc : c = r.1
  · have hw : ¬ w = r.2.1 := by
      intro hw
      exact h (by rw [chainResultKey, ← hc, ← hw])
    simp [hc, hw]
  · simp [hc]

theorem foldChainResults_not_mem {V : Type} (init : String → String → Option V)
    (rs : List (String × String × V)) (c w : String)
    (h : ∀ r ∈ rs, chainResultKey r ≠ (c, w)) :
    foldChainResults init rs c w = init c w := by
  induction rs generalizing init with
  | nil => rfl
  | cons r tl ih =>
    have : foldChainResults init (r :: tl) = foldChainResults (applyChainResult init r) tl := rfl
    rw [this, ih (applyChainResult init r) (fun r' hr' => h r' (List.mem_cons_of_mem _ hr')),
      applyChainResult_ne init r c w (h r (List.mem_cons_self _ _))]

theorem foldChainResults_mem {V : Type} (init : String → String → Option V)
    (rs : List (String × String × V)) (r0 : String × String × V) :
    (rs.map chainResultKey).Nodup → r0 ∈ rs →
      foldChainResults init rs r0.1 r0.2.1 = some r0.2.2 := by
  induction rs generalizing init with
  | nil => intro _ hmem; cases hmem
  | cons r tl ih =>
    intro hnd hmem
    rw [List.map_cons, List.nodup_cons] at hnd
    obtain ⟨hnotin, hnd'⟩ := hnd
    have hfold : foldChainResults init (r :: tl) = foldChainResults (applyChainResult init r) tl := rfl
    rw [hfold]
    rcases List.mem_cons.mp hmem with heq | hmem'
    · subst heq
      rw [foldChainResults_not_mem _ tl r0.1 r0.2.1 ?keys]
      · simp [applyChainResult]
      case keys =>
        intro r' hr' hkey
        have hkey' : chainResultKey r' = chainResultKey r0 := hkey
        exact hnotin (hkey' ▸ List.mem_map_of_mem chainResultKey hr')
    · exact ih (applyChainResult init r) hnd' hmem'

theorem applyBalanceResult_ne {V : Type} (init : String → Option V)
    (r : String × V) (w : String) (h : r.1 ≠ w) :
    applyBalanceResult init r w = init w := by
  unfold applyBalanceResult
  rw [if_neg (fun hw : w = r.1 => h hw.symm)]

theorem foldBalanceResults_not_mem {V : Type} (init : String → Option V)
    (rs : List (String × V)) (w : String)
    (h : ∀ r ∈ rs, r.1 ≠ w) :
    foldBalanceResults init rs w = init w := by
  induction rs generalizing init with
  | nil => rfl
  | cons r tl ih =>
    have hfold : foldBalanceResults init (r :: tl) = foldBalanceResults (applyBalanceResult init r) tl := rfl
    rw [hfold, ih (applyBalanceResult init r) (fun r' hr' => h r' (List.mem_cons_of_mem _ hr')),
      applyBalanceResult_ne init r w (h r (List.mem_cons_self _ _))]

theorem foldBalanceResults_mem {V : Type} (init : String → Option V)
    (rs : List (String × V)) (r0 : String × V) :
    (rs.map Prod.fst).Nodup → r0 ∈ rs →
      foldBalanceResults init rs r0.1 = some r0.2 := by
  induction rs generalizing init with
  | nil => intro _ hmem; cases hmem
  | cons r tl ih =>
    intro hnd hmem
    rw [List.map_cons, List.nodup_cons] at hnd
    obtain ⟨hnotin, hnd'⟩ := hnd
    have hfold : foldBalanceResults init (r :: tl) = foldBalanceResults (applyBalanceResult init r) tl := rfl
    rw [hfold]
    rcases List.mem_cons.mp hmem with heq | hmem'
    · subst heq
      rw [foldBalanceResults_not_mem _ tl r0.1 ?keys]
      · simp [applyBalanceResult]
      case keys =>
        intro r' hr' hkey
        exact hnotin (hkey ▸ List.mem_map_of_mem Prod.fst hr')
    · exact ih (applyBalanceResult init r) hnd' hmem'

/-- C8: with results carrying explicit keys — `(chain, wallet)` for
chain-balance results, `wallet` for wallet-total results — and each key
produced once in a phase, folding the drained results into the aggregate in
any arrival order yields the same coins mapping and the same balances
mapping. -/
theorem aggregation_order_independent :
    (∀ (V : Type) (rs1 rs2 : List (String × String × V))
        (init : String → String → Option V),
      rs1.Perm rs2 → (rs1.map chainResultKey).Nodup →
      ∀ c w, foldChainResults init rs1 c w = foldChainResults init rs2 c w)
    ∧ (∀ (V : Type) (bs1 bs2 : List (String × V)) (init : String → Option V),
      bs1.Perm bs2 → (bs1.map Prod.fst).Nodup →
      ∀ w, foldBalanceResults init bs1 w = foldBalanceResults init bs2 w) := by
  constructor
  · intro V rs1 rs2 init hperm hnd c w
    have hnd2 : (rs2.map chainResultKey).Nodup :=
      ((hperm.map chainResultKey).nodup_iff).mp hnd
    by_cases hmem : ∃ r ∈ rs1, chainResultKey r = (c, w)
    · obtain ⟨r0, hr0, hkey⟩ := hmem
      have hc : r0.1 = c := congrArg Prod.fst hkey
      have hw : r0.2.1 = w := congrArg Prod.snd hkey
      subst hc; subst hw
      rw [foldChainResults_mem init rs1 r0 hnd hr0,
        foldChainResults_mem init rs2 r0 hnd2 (hperm.subset hr0)]
    · push_neg at hmem
      rw [foldChainResults_not_mem init rs1 c w hmem,
        foldChainResults_not_mem init rs2 c w
          (fun r hr => hmem r (hperm.symm.subset hr))]
  · intro V bs1 bs2 init hperm hnd w
    have hnd2 : (bs2.map Prod.fst).Nodup :=
      ((hperm.map Prod.fst).nodup_iff).mp hnd
    by_cases hmem : ∃ r ∈ bs1, r.1 = w
    · obtain ⟨r0, hr0, hkey⟩ := hmem
      subst hkey
      rw [foldBalanceResults_mem init bs1 r0 hnd hr0,
        foldBalanceResults_mem init bs2 r0 hnd2 (hperm.subset hr0)]
    · push_neg at hmem
      rw [foldBalanceResults_not_mem init bs1 w hmem,
        foldBalanceResults_not_mem init bs2 w
          (fun r hr => hmem r (hperm.symm.subset hr))]

/-- Witness for C8: two concrete two-element result sets, swapped, agree on
a queried key. -/
theorem aggregation_order_independent_witness :
    foldChainResults (fun _ _ => none)
        [("eth", "0xa", [(⟨100, "USD Coin", "USDC", some 1, "l"⟩ : Coin)]),
         ("eth", "0xb", [])] "eth" "0xa"
      = foldChainResults (fun _ _ => none)
        [("eth", "0xb", []),
         ("eth", "0xa", [(⟨100, "USD Coin", "USDC", some 1, "l"⟩ : Coin)])]
        "eth" "0xa"
    ∧ foldBalanceResults (fun _ => none)
        [("0xa", (5 : ℚ)), ("0xb", 7)] "0xb"
      = foldBalanceResults (fun _ => none)
        [("0xb", (7 : ℚ)), ("0xa", 5)] "0xb" :=
  ⟨aggregation_order_independent.1 (List Coin) _ _ _
      (List.Perm.swap _ _ _) (by decide) "eth" "0xa",
   aggregation_order_independent.2 ℚ _ _ _
      (List.Perm.swap _ _ _) (by decide) "0xb"⟩

theorem lookupKey_map_self {β : Type} (l : List String) (g : String → β)
    (c : String) (hc : c ∈ l) :
    lookupKey (l.map (fun x => (x, g x))) c = some (g c) := by
  induction l with
  | nil => cases hc
  | cons x tl ih =>
    by_cases hx : x = c
    · subst hx
      simp [lookupKey]
    · rcases List.mem_cons.mp hc with h | h
      · exact absurd h.symm hx
      · simp only [List.map_cons, lookupKey, if_neg hx]
        exact ih h

theorem lookupKey_setWalletCoins (row : List (String × List Coin))
    (w : String) (ts : List Coin) (w' : String) :
    lookupKey (setWalletCoins row w ts) w' =
      (lookupKey row w').map (fun v => if w' = w then ts else v) := by
  induction row with
  | nil => rfl
  | cons q tl ih =>
    obtain ⟨k, v⟩ := q
    by_cases hk : k = w
    · subst hk
      by_cases hw' : k = w'
      · subst hw'
        simp [setWalletCoins, lookupKey]
      · simp only [setWalletCoins, if_pos rfl, lookupKey, if_neg hw']
        cases hl : lookupKey tl w' with
        | none => rfl
        | some v' =>
          have : ¬ w' = k := fun h => hw' h.symm
          simp [this]
    · by_cases hw' : k = w'
      · subst hw'
        have : ¬ k = w := hk
        simp only [setWalletCoins, if_neg hk, lookupKey, if_pos rfl]
        simp [fun h : k = w => hk h]
      · simp only [setWalletCoins, if_neg hk, lookupKey, if_neg hw']
        exact ih

theorem lookupKey_setChainWallet
    (m : List (String × List (String × List Coin))) (c w : String)
    (ts : List Coin) (c' : String) :
    lookupKey (setChainWallet m c w ts) c' =
      (lookupKey m c').map
        (fun row => if c' = c then setWalletCoins row w ts else row) := by
  induction m with
  | nil => rfl
  | cons p tl ih =>
    obtain ⟨k, row⟩ := p
    by_cases hk : k = c
    · subst hk
      by_cases hw' : k = c'
      · subst hw'
        simp [setChainWallet, lookupKey]
      · simp only [setChainWallet, if_pos rfl, lookupKey, if_neg hw']
        cases hl : lookupKey tl c' with
        | none => rfl
        | some row' =>
          have : ¬ c' = k := fun h => hw' h.symm
          simp [this]
    · by_cases hw' : k = c'
      · subst hw'
        simp only [setChainWallet, if_neg hk, lookupKey, if_pos rfl]
        simp [fun h : k = c => hk h]
      · simp only [setChainWallet, if_neg hk, lookupKey, if_neg hw']
        exact ih

theorem totalMap_setChainWallet {selected wallets : List String}
    {m : List (String × List (String × List Coin))} (c w : String)
    (ts : List Coin) (h : TotalMap selected wallets m) :
    TotalMap selected wallets (setChainWallet m c w ts) := by
  intro c' hc'
  obtain ⟨row, hrow, hin⟩ := h c' hc'
  rw [lookupKey_setChainWallet, hrow]
  refine ⟨_, rfl, ?_⟩
  intro w' hw'
  obtain ⟨ts0, hts0⟩ := hin w' hw'
  by_cases hcc : c' = c
  · show ∃ ts1,
      lookupKey (if c' = c then setWalletCoins row w ts else row) w' = some ts1
    rw [if_pos hcc, lookupKey_setWalletCoins, hts0]
    exact ⟨_, rfl⟩
  · show ∃ ts1,
      lookupKey (if c' = c then setWalletCoins row w ts else row) w' = some ts1
    rw [if_neg hcc]
    exact ⟨ts0, hts0⟩

theorem foldl_preserves {α β : Type} (P : α → Prop) (f : α → β → α)
    (h : ∀ a b, P a → P (f a b)) :
    ∀ (l : List β) (a : α), P a → P (l.foldl f a) := by
  intro l
  induction l with
  | nil => intro a ha; exact ha
  | cons b tl ih => intro a ha; exact ih (f a b) (h a b ha)

theorem initCoins_total (selected wallets : List String) :
    TotalMap selected wallets (initCoins selected wallets) := by
  intro c hc
  refine ⟨wallets.map (fun w => (w, ([] : List Coin))), ?_, ?_⟩
  · exact lookupKey_map_self selected _ c hc
  · intro w hw
    exact ⟨[], lookupKey_map_self wallets _ w hw⟩

/-- C2: after the restructuring step of `get_balances`, the coin mapping is
total — for every selected chain (pool names included) and every input
wallet, `coins[c][w]` is defined (an empty list when no data arrived). -/
theorem restructure_total (selected wallets : List String)
    (coins : String → String → Option (List Coin)) (c w : String)
    (hc : c ∈ selected) (hw : w ∈ wallets) :
    ∃ row, lookupKey (restructureCoins selected wallets coins) c = some row ∧
      ∃ ts, lookupKey row w = some ts := by
  have htot : TotalMap selected wallets
      (restructureCoins selected wallets coins) := by
    unfold restructureCoins
    refine foldl_preserves (TotalMap selected wallets) _ ?hstep selected
      (initCoins selected wallets) (initCoins_total selected wallets)
    case hstep =>
      intro m c0 hm
      refine foldl_preserves (TotalMap selected wallets) _ ?hstep2 wallets m hm
      case hstep2 =>
        intro m2 w0 hm2
        cases hcw : coins c0 w0 with
        | none => exact hm2
        | some ts => exact totalMap_setChainWallet c0 w0 ts hm2
  obtain ⟨row, hrow, hin⟩ := htot c hc
  exact ⟨row, hrow, hin w hw⟩

/-- Witness for C2 at one chain, one wallet, and no arrived results. -/
theorem restructure_total_witness :
    ∃ row, lookupKey (restructureCoins ["eth"] ["0xa"] (fun _ _ => none))
        "eth" = some row ∧ ∃ ts, lookupKey row ("0xa") = some ts :=
  restructure_total ["eth"] ["0xa"] (fun _ _ => none) "eth" "0xa"
    (List.mem_singleton.mpr rfl) (List.mem_singleton.mpr rfl)

theorem wstep_countDone {s s' : PoolState} (h : WStep s s') :
    countDone s'.queue = countDone s.queue := by
  cases h with
  | takeReal d rest ws i hi hrun =>
    simp [countDone, List.countP_cons]
  | takeDone rest ws i hi hrun =>
    simp [countDone, List.countP_cons, List.countP_append]

theorem reach_countDone {s s' : PoolState}
    (h : Relation.ReflTransGen WStep s s') :
    countDone s'.queue = countDone s.queue := by
  induction h with
  | refl => rfl
  | tail _ hstep ih => rw [wstep_countDone hstep, ih]

theorem wstep_workers_length {s s' : PoolState} (h : WStep s s') :
    s'.workers.length = s.workers.length := by
  cases h with
  | takeReal d rest ws i hi hrun => rfl
  | takeDone rest ws i hi hrun => simp

theorem reach_workers_length {s s' : PoolState}
    (h : Relation.ReflTransGen WStep s s') :
    s'.workers.length = s.workers.length := by
  induction h with
  | refl => rfl
  | tail _ hstep ih => rw [wstep_workers_length hstep, ih]

theorem wstep_workerInv {s s' : PoolState} (h : WStep s s')
    (hw : WorkerInv s) : WorkerInv s' := by
  cases h with
  | takeReal d rest ws i hi hrun => exact hw
  | takeDone rest ws i hi hrun =>
    intro wk hwk
    rcases List.mem_or_eq_of_mem_set hwk with hmem | heq
    · exact hw wk hmem
    · subst heq
      have h0 := hw (ws.get ⟨i, hi⟩) (ws.get_mem i hi)
      rw [hrun] at h0
      simp only [if_true] at h0
      show (ws.get ⟨i, hi⟩).2 + 1 = if (false : Bool) then 0 else 1
      rw [h0]
      rfl

theorem reach_workerInv {s s' : PoolState}
    (h : Relation.ReflTransGen WStep s s') (hw : WorkerInv s) : WorkerInv s' := by
  induction h with
  | refl => exact hw
  | tail _ hstep ih => exact wstep_workerInv hstep ih

theorem stuck_all_terminated (s : PoolState) (hq : s.queue ≠ [])
    (hstuck : ∀ s', ¬ WStep s s') : allTerminated s = true := by
  obtain ⟨q, ws⟩ := s
  by_contra hall
  have hex : ∃ wk ∈ ws, ¬ ((!wk.1) = true) := by
    simpa [allTerminated, List.all_eq_true] using hall
  obtain ⟨wk, hwk, hrunb⟩ := hex
  have hrun1 : wk.1 = true := by simpa using hrunb
  obtain ⟨⟨i, hi⟩, hget⟩ := List.mem_iff_get.mp hwk
  cases q with
  | nil => exact hq rfl
  | cons t rest =>
    cases t with
    | real d =>
      exact hstuck ⟨rest, ws⟩
        (WStep.takeReal d rest ws i hi (by rw [hget]; exact hrun1))
    | done =>
      exact hstuck _
        (WStep.takeDone rest ws i hi (by rw [hget]; exact hrun1))

/-- C3 amended: starting from any list of real tasks followed by exactly
one poison task, with `n` workers, any reachable state from which no step
is possible (no deadlock exists: a live worker can always step because the
queue invariantly holds the poison) has all `n` workers terminated, each
having re-enqueued the poison exactly once — and the task queue still
holds exactly one poison task; it is *not* empty. -/
theorem poison_shutdown (tasks : List PoolTask) (n : Nat) (s : PoolState)
    (hreal : countDone tasks = 0)
    (hreach : Relation.ReflTransGen WStep (initPool tasks n) s)
    (hstuck : ∀ s', ¬ WStep s s') :
    allTerminated s = true ∧ countDone s.queue = 1 ∧ s.queue ≠ [] ∧
      s.workers.length = n ∧
      s.workers.all (fun wk => wk.2 == 1) = true := by
  have hcd : countDone s.queue = 1 := by
    rw [reach_countDone hreach]
    show countDone (tasks ++ [PoolTask.done]) = 1
    unfold countDone at hreal ⊢
    rw [List.countP_append]
    simp [hreal]
  have hq : s.queue ≠ [] := by
    intro hnil
    rw [hnil] at hcd
    simp [countDone] at hcd
  have hterm : allTerminated s = true := stuck_all_terminated s hq hstuck
  have hlen : s.workers.length = n := by
    rw [reach_workers_length hreach]
    simp [initPool]
  have hinv : WorkerInv s := by
    refine reach_workerInv hreach ?_
    intro wk hwk
    have hwk' := List.eq_of_mem_replicate hwk
    rw [hwk']
    rfl
  refine ⟨hterm, hcd, hq, hlen, ?_⟩
  rw [List.all_eq_true]
  intro wk hwk
  have h1 := hinv wk hwk
  have h2 : wk.1 = false := by
    have := List.all_eq_true.mp hterm wk hwk
    simpa using this
  rw [h2] at h1
  simp at h1
  simp [h1]

/-- C3 counterexample: with one worker and the single poison task, the
only execution terminates the worker while leaving the re-enqueued poison
in the task queue — after all workers have terminated the queue is *not*
empty, contradicting the claim. -/
theorem poison_remains_counterexample :
    Relation.ReflTransGen WStep (initPool [] 1)
        ⟨[PoolTask.done], [(false, 1)]⟩
    ∧ allTerminated ⟨[PoolTask.done], [(false, 1)]⟩ = true
    ∧ (⟨[PoolTask.done], [(false, 1)]⟩ : PoolState).queue ≠ [] := by
  refine ⟨Relation.ReflTransGen.single ?_, rfl, List.cons_ne_nil _ _⟩
  have h := WStep.takeDone [] [(true, 0)] 0 (by decide) rfl
  simpa [initPool] using h

/-- Witness for C3 amended: one real task, one worker, the two-step run to
the stuck state. -/
theorem poison_shutdown_witness :
    allTerminated ⟨[PoolTask.done], [(false, 1)]⟩ = true
    ∧ countDone [PoolTask.done] = 1
    ∧ ([PoolTask.done] ≠ ([] : List PoolTask))
    ∧ ([(false, 1)] : List (Bool × Nat)).length = 1
    ∧ ([(false, 1)] : List (Bool × Nat)).all (fun wk => wk.2 == 1) = true :=
  poison_shutdown [PoolTask.real 0] 1 ⟨[PoolTask.done], [(false, 1)]⟩
    (by decide)
    (Relation.ReflTransGen.tail
      (Relation.ReflTransGen.single
        (WStep.takeReal 0 [PoolTask.done] [(true, 0)] 0 (by decide) rfl))
      (by simpa using WStep.takeDone [] [(true, 0)] 0 (by decide) rfl))
    (by
      intro s' hs'
      cases hs' with
      | takeDone rest ws i hi hrun =>
        have hz : i = 0 := Nat.lt_one_iff.mp hi
        subst hz
        simp [List.get] at hrun)

end DebankChecker
